import Mathlib

/-!
Shallow embedding of the Monte-Carlo simulation core of the
Monte_Carlo_ManPack repository (file `services/monteCarlo.ts`), together
with theorems settling the specification claims about it.

Modelling conventions:
  * JavaScript double arithmetic is modelled over a `LinearOrderedField R`
    (instantiated at `ℝ` in the claim theorems); `Math.exp` and `Math.sqrt`
    are passed as explicit function parameters `mexp`, `msqrt` and
    instantiated with `Real.exp` and `Real.sqrt`.
  * `Math.random`-driven gaussian sampling (`gaussianRandom`) is modelled by
    an explicit draw stream `z : ℕ → R` together with a draw counter that is
    threaded through the run in program order: the p-th path of a scenario
    consumes draw `z (ctr + p)` and the counter advances by `nPaths` per
    scenario, exactly as the single shared generator of the source does.
  * `nPaths` is a JS number used as a typed-array length; it is modelled as
    `ℤ`.  `new Float64Array(nPaths)` throws a `RangeError` for a negative
    argument, which is the only failure point of `runFullSimulation`; the
    run is therefore embedded in `Except String`.
  * A JS array assignment `a[i] = v` beyond the current length grows the
    array; `setGrow` models this (intermediate holes are modelled as `[]`;
    in every run of the program the written column sets leave no hole in
    the final state, so this coincides with the source's observable result).
-/

namespace MonteCarloManPack

variable {R : Type} [LinearOrderedField R]

/-- Input parameter record, from `types.ts` (`SimulationParams`). -/
structure SimulationParams (R : Type) where
  r : R
  q : R
  s0 : R
  s0Step : R
  vol : R
  volStep : R
  nPaths : ℤ
  maturities : List R
  strikes : List R

/-- One priced outcome row, from `types.ts` (`ScenarioRow`). -/
structure ScenarioRow (R : Type) where
  s0 : R
  vol : R
  t : R
  k : R
  price : R
  stdErr : R

/-- Aggregate output record, from `types.ts` (`SimulationResult`). -/
structure SimulationResult (R : Type) where
  results : List (ScenarioRow R)
  centralDistribution : List R
  detailedPaths : List (List R)

/-- Spot axis, `monteCarlo.ts` lines 14-23: geometric perturbation of the
pivot, `[P*(1-s)^2, P*(1-s), P, P*(1+s), P*(1+s)^2]` with
`s = stepPercent / 100`. -/
def generateGeometricScenarios (pivot stepPercent : R) : List R :=
  let step := stepPercent / 100
  [pivot * (1 - step) ^ 2,
   pivot * (1 - step),
   pivot,
   pivot * (1 + step),
   pivot * (1 + step) ^ 2]

/-- Volatility axis, `monteCarlo.ts` lines 28-37: arithmetic perturbation of
the pivot, `[P-2s, P-s, P, P+s, P+2s]` with `s = stepPercent / 100`. -/
def generateArithmeticScenarios (pivot stepPercent : R) : List R :=
  let step := stepPercent / 100
  [pivot - 2 * step,
   pivot - step,
   pivot,
   pivot + step,
   pivot + 2 * step]

/-- Detailed-column mapper, `monteCarlo.ts` lines 42-74.  Returns the
column index for a mapped `(sIdx, vIdx, tIdx)` triple and `-1` otherwise. -/
def getDetailedColumnIndex (sIdx vIdx tIdx : ℕ) : ℤ :=
  if sIdx = 2 ∧ vIdx = 2 then
    (tIdx : ℤ)
  else
    let baseOffset : ℤ := 3 + (tIdx : ℤ) * 8
    if sIdx = 1 then
      if vIdx = 2 then baseOffset + 0
      else if vIdx = 1 then baseOffset + 1
      else if vIdx = 3 then baseOffset + 2
      else -1
    else if sIdx = 2 then
      if vIdx = 1 then baseOffset + 3
      else if vIdx = 3 then baseOffset + 4
      else -1
    else if sIdx = 3 then
      if vIdx = 2 then baseOffset + 5
      else if vIdx = 1 then baseOffset + 6
      else if vIdx = 3 then baseOffset + 7
      else -1
    else -1

/-- Path-simulation core for one `(S0, vol, T)` tuple, `monteCarlo.ts`
lines 113-122: `terminalPrices[p] = S0 * exp(drift + diffusion * z_p)` with
`drift = (rDec - qDec - 0.5*vol^2)*T` and `diffusion = vol * sqrt T`.
The p-th path consumes draw `z (ctr + p)` of the shared stream. -/
def simulatePaths (mexp msqrt : R → R) (s0 vol t rDec qDec : R) (n : ℕ)
    (z : ℕ → R) (ctr : ℕ) : List R :=
  let drift := (rDec - qDec - 1 / 2 * vol * vol) * t
  let diffusion := vol * msqrt t
  (List.range n).map fun p => s0 * mexp (drift + diffusion * z (ctr + p))

/-- Payoff valuation for one strike, `monteCarlo.ts` lines 139-158:
`price = exp(-rDec*t) * (Σ max(terminal_p - k, 0)) / nPaths`. -/
def payoffPrice (mexp : R → R) (rDec t k : R) (nPaths : ℤ)
    (terminal : List R) : R :=
  let discountFactor := mexp (-rDec * t)
  let sumPayoff := (terminal.map fun st => max (st - k) 0).sum
  let avgPayoff := sumPayoff / (nPaths : R)
  discountFactor * avgPayoff

/-- JS array store `a[i] = v`, which grows the array when `i` is past the
end (`monteCarlo.ts` line 135 on the 27-slot `detailedPaths` array). -/
def setGrow (l : List (List R)) (i : ℕ) (v : List R) : List (List R) :=
  if i < l.length then l.set i v
  else l ++ List.replicate (i - l.length) [] ++ [v]

/-- Mutable state of the orchestration loop of `runFullSimulation`:
draw counter of the shared gaussian stream, accumulated rows, current
central distribution and current detailed 27-slot array. -/
structure SimState (R : Type) where
  ctr : ℕ
  results : List (ScenarioRow R)
  centralDistribution : List R
  detailedPaths : List (List R)

/-- Loop body of `runFullSimulation` for one `(i, j, tIdx)` scenario,
`monteCarlo.ts` lines 112-159, in the non-throwing case `nPaths ≥ 0`. -/
def pureStep (mexp msqrt : R → R) (rDec qDec : R) (nPaths : ℤ)
    (strikes : List R) (z : ℕ → R) (targetDistT : Option R)
    (i : ℕ) (currentS0 : R) (j : ℕ) (currentVol : R) (tIdx : ℕ) (t : R)
    (st : SimState R) : SimState R :=
  let terminalPrices :=
    simulatePaths mexp msqrt currentS0 currentVol t rDec qDec nPaths.toNat z st.ctr
  let central :=
    if i = 2 ∧ j = 2 ∧ some t = targetDistT then terminalPrices
    else st.centralDistribution
  let detailedIdx := getDetailedColumnIndex i j tIdx
  let detailed :=
    if detailedIdx = -1 then st.detailedPaths
    else setGrow st.detailedPaths detailedIdx.toNat terminalPrices
  let rows := strikes.map fun k =>
    { s0 := currentS0, vol := currentVol, t := t, k := k,
      price := payoffPrice mexp rDec t k nPaths terminalPrices,
      stdErr := 0 : ScenarioRow R }
  { ctr := st.ctr + nPaths.toNat,
    results := st.results ++ rows,
    centralDistribution := central,
    detailedPaths := detailed }

/-- Loop body of `runFullSimulation` including the only throwing point:
`new Float64Array(nPaths)` raises `RangeError` for negative `nPaths`
(`monteCarlo.ts` line 117). -/
def scenarioStep (mexp msqrt : R → R) (rDec qDec : R) (nPaths : ℤ)
    (strikes : List R) (z : ℕ → R) (targetDistT : Option R)
    (i : ℕ) (currentS0 : R) (j : ℕ) (currentVol : R) (tIdx : ℕ) (t : R)
    (st : SimState R) : Except String (SimState R) :=
  if nPaths < 0 then .error "RangeError: invalid typed array length"
  else .ok (pureStep mexp msqrt rDec qDec nPaths strikes z targetDistT
    i currentS0 j currentVol tIdx t st)

/-- Simulation orchestrator, `monteCarlo.ts` lines 76-169: generates the two
axes, iterates spot index × vol index × maturity index, simulates each
scenario once, retains the central and detailed samples and appends one row
per strike. -/
def runFullSimulation (mexp msqrt : R → R) (params : SimulationParams R)
    (z : ℕ → R) : Except String (SimulationResult R) := do
  let s0List := generateGeometricScenarios params.s0 params.s0Step
  let volList := generateArithmeticScenarios (params.vol / 100) params.volStep
  let rDec := params.r / 100
  let qDec := params.q / 100
  let targetDistT := params.maturities.head?
  let init : SimState R := ⟨0, [], [], List.replicate 27 []⟩
  let final ← s0List.enum.foldlM (fun st1 is =>
    volList.enum.foldlM (fun st2 jv =>
      params.maturities.enum.foldlM (fun st3 tt =>
        scenarioStep mexp msqrt rDec qDec params.nPaths params.strikes z
          targetDistT is.1 is.2 jv.1 jv.2 tt.1 tt.2 st3) st2) st1) init
  pure ⟨final.results, final.centralDistribution, final.detailedPaths⟩

/-- Terminal-price sample that the run simulates for the scenario triple
`(i, j, tIdx)`: the scenarios are visited in lexicographic order
spot → vol → maturity, each consuming `nPaths` draws, so the sample of the
triple starts at draw `((i*5 + j) * M + tIdx) * nPaths`. -/
def scenarioSample (mexp msqrt : R → R) (params : SimulationParams R)
    (z : ℕ → R) (i j tIdx : ℕ) : List R :=
  simulatePaths mexp msqrt
    ((generateGeometricScenarios params.s0 params.s0Step).getD i 0)
    ((generateArithmeticScenarios (params.vol / 100) params.volStep).getD j 0)
    (params.maturities.getD tIdx 0)
    (params.r / 100) (params.q / 100) params.nPaths.toNat z
    (((i * 5 + j) * params.maturities.length + tIdx) * params.nPaths.toNat)

/-- One scenario step datum: `((i, currentS0), (j, currentVol), (tIdx, t))`. -/
abbrev ScenStep (R : Type) : Type := (ℕ × R) × (ℕ × R) × (ℕ × R)

/-- Pure loop of `runFullSimulation` (lines 102-162) with the `Except`
layer removed; equal to the run whenever `nPaths ≥ 0`. -/
def pureRun (mexp msqrt : R → R) (params : SimulationParams R)
    (z : ℕ → R) : SimState R :=
  let s0List := generateGeometricScenarios params.s0 params.s0Step
  let volList := generateArithmeticScenarios (params.vol / 100) params.volStep
  let rDec := params.r / 100
  let qDec := params.q / 100
  let targetDistT := params.maturities.head?
  s0List.enum.foldl (fun st1 is =>
    volList.enum.foldl (fun st2 jv =>
      params.maturities.enum.foldl (fun st3 tt =>
        pureStep mexp msqrt rDec qDec params.nPaths params.strikes z
          targetDistT is.1 is.2 jv.1 jv.2 tt.1 tt.2 st3) st2) st1)
    ⟨0, [], [], List.replicate 27 []⟩

/-- The scenario tuples of the run, in iteration order
spot (outer) → vol → maturity (inner). -/
def stepsOf (s0List volList ms : List R) : List (ScenStep R) :=
  s0List.enum.flatMap fun a =>
    volList.enum.flatMap fun b =>
      ms.enum.map fun c => (a, b, c)

/-- The scenario tuples of one run of `runFullSimulation params`. -/
def runSteps (params : SimulationParams R) : List (ScenStep R) :=
  stepsOf (generateGeometricScenarios params.s0 params.s0Step)
    (generateArithmeticScenarios (params.vol / 100) params.volStep)
    params.maturities

/-- Uncurried form of `pureStep` acting on one scenario tuple. -/
def flatStep (mexp msqrt : R → R) (rDec qDec : R) (nPaths : ℤ)
    (strikes : List R) (z : ℕ → R) (targetDistT : Option R)
    (st : SimState R) (x : ScenStep R) : SimState R :=
  pureStep mexp msqrt rDec qDec nPaths strikes z targetDistT
    x.1.1 x.1.2 x.2.1.1 x.2.1.2 x.2.2.1 x.2.2.2 st

/-- Rows appended for one scenario (one per strike, lines 139-159). -/
def stepRows (mexp msqrt : R → R) (rDec qDec : R) (nPaths : ℤ)
    (strikes : List R) (z : ℕ → R) (s0v vv t : R) (c0 : ℕ) :
    List (ScenarioRow R) :=
  strikes.map fun k =>
    { s0 := s0v, vol := vv, t := t, k := k,
      price := payoffPrice mexp rDec t k nPaths
        (simulatePaths mexp msqrt s0v vv t rDec qDec nPaths.toNat z c0),
      stdErr := 0 }

/-- Rows produced by a list of scenario steps starting at draw counter
`c0`; each step consumes `nPaths` draws. -/
def rowsOfSteps (mexp msqrt : R → R) (rDec qDec : R) (nPaths : ℤ)
    (strikes : List R) (z : ℕ → R) : ℕ → List (ScenStep R) →
    List (ScenarioRow R)
  | _, [] => []
  | c0, x :: rest =>
    stepRows mexp msqrt rDec qDec nPaths strikes z x.1.2 x.2.1.2 x.2.2.2 c0
      ++ rowsOfSteps mexp msqrt rDec qDec nPaths strikes z
        (c0 + nPaths.toNat) rest

/-- Central distribution after a list of scenario steps (line 125-127:
overwritten on every step whose indices are `(2, 2)` and whose maturity
value equals the first maturity). -/
def centralOfSteps (mexp msqrt : R → R) (rDec qDec : R) (nPaths : ℤ)
    (z : ℕ → R) (targetDistT : Option R) : ℕ → List R →
    List (ScenStep R) → List R
  | _, cur, [] => cur
  | c0, cur, x :: rest =>
    centralOfSteps mexp msqrt rDec qDec nPaths z targetDistT
      (c0 + nPaths.toNat)
      (if x.1.1 = 2 ∧ x.2.1.1 = 2 ∧ some x.2.2.2 = targetDistT then
        simulatePaths mexp msqrt x.1.2 x.2.1.2 x.2.2.2 rDec qDec
          nPaths.toNat z c0
      else cur) rest

/-- Detailed-column writes `(column, sample)` issued by a list of scenario
steps (lines 131-136), in program order. -/
def writesOfSteps (mexp msqrt : R → R) (rDec qDec : R) (nPaths : ℤ)
    (z : ℕ → R) : ℕ → List (ScenStep R) → List (ℤ × List R)
  | _, [] => []
  | c0, x :: rest =>
    let idx := getDetailedColumnIndex x.1.1 x.2.1.1 x.2.2.1
    let ws := writesOfSteps mexp msqrt rDec qDec nPaths z
      (c0 + nPaths.toNat) rest
    if idx = -1 then ws
    else (idx, simulatePaths mexp msqrt x.1.2 x.2.1.2 x.2.2.2 rDec qDec
      nPaths.toNat z c0) :: ws

/-- Replay of a list of column writes on a detailed array. -/
def applyWrites (ws : List (ℤ × List R)) (d : List (List R)) :
    List (List R) :=
  ws.foldl (fun d w => setGrow d w.1.toNat w.2) d

/-- Value of the last write to column `c` in a write list, if any. -/
def lastWrite (c : ℤ) : List (ℤ × List R) → Option (List R)
  | [] => none
  | w :: ws =>
    match lastWrite c ws with
    | some s => some s
    | none => if w.1 = c then some w.2 else none

/-- The full spot × vol × maturity × strike cross product of rows in
iteration order, each row priced from the sample its scenario simulated. -/
def crossProductRows (mexp msqrt : R → R) (params : SimulationParams R)
    (z : ℕ → R) : List (ScenarioRow R) :=
  (List.range 5).flatMap fun i =>
    (List.range 5).flatMap fun j =>
      (List.range params.maturities.length).flatMap fun tIdx =>
        params.strikes.map fun k =>
          { s0 := (generateGeometricScenarios params.s0 params.s0Step).getD i 0,
            vol := (generateArithmeticScenarios (params.vol / 100)
              params.volStep).getD j 0,
            t := params.maturities.getD tIdx 0,
            k := k,
            price := payoffPrice mexp (params.r / 100)
              (params.maturities.getD tIdx 0) k params.nPaths
              (scenarioSample mexp msqrt params z i j tIdx),
            stdErr := 0 }

/-- The maturity-level chunk of scenario steps for fixed spot index `i`
(value `sv`) and vol index `j` (value `vv`), with maturity indices
starting at `t0`. -/
def matChunk (i : ℕ) (sv : R) (j : ℕ) (vv : R) (t0 : ℕ) (ms : List R) :
    List (ScenStep R) :=
  (ms.enumFrom t0).map fun c => ((i, sv), (j, vv), c)

/-- Scenario steps with the spot enumeration starting at index `a0`
(`stepsOf` is the `a0 = 0` case). -/
def stepsFrom (a0 : ℕ) (s0l vl ms : List R) : List (ScenStep R) :=
  (s0l.enumFrom a0).flatMap fun a =>
    vl.enum.flatMap fun b =>
      ms.enum.map fun c => (a, b, c)

/-- The 9 `(spotIndex, volIndex)` pairs of the §4.5 mapping table
(pivot pair plus the 8 block-offset pairs). -/
def mappedPairs : List (ℕ × ℕ) :=
  [(2, 2), (1, 2), (1, 1), (1, 3), (2, 1), (2, 3), (3, 2), (3, 1), (3, 3)]

/-- Mapper outputs over all 75 `(spot, vol, maturity)` triples for M = 3,
in iteration order. -/
def allColumnsM3 : List ℤ :=
  (List.range 5).flatMap fun s =>
    (List.range 5).flatMap fun v =>
      (List.range 3).map fun t => getDetailedColumnIndex s v t

/-- The mapped (non `-1`) columns among `allColumnsM3`. -/
def mappedColumnsM3 : List ℤ :=
  allColumnsM3.filter (· ≠ -1)

/-! Bridge lemmas: for `nPaths ≥ 0` the `Except` layer never fires, and the
three nested loops flatten to one fold over the scenario-step list. -/

theorem except_foldlM_eq_ok {σ α : Type} (f : σ → α → Except String σ)
    (g : σ → α → σ) (hfg : ∀ s a, f s a = .ok (g s a)) :
    ∀ (l : List α) (st : σ), l.foldlM f st = .ok (l.foldl g st) := by
  intro l
  induction l with
  | nil => intro st; rfl
  | cons a rest ih =>
    intro st
    simp [List.foldlM, List.foldl, hfg, ih, Bind.bind, Except.bind]

theorem run_eq_pureRun (mexp msqrt : R → R) (params : SimulationParams R)
    (z : ℕ → R) (hN : 0 ≤ params.nPaths) :
    runFullSimulation mexp msqrt params z =
      .ok ⟨(pureRun mexp msqrt params z).results,
           (pureRun mexp msqrt params z).centralDistribution,
           (pureRun mexp msqrt params z).detailedPaths⟩ := by
  have h1 : ∀ (i : ℕ) (sv : R) (j : ℕ) (vv : R) (st : SimState R),
      params.maturities.enum.foldlM (fun st3 tt =>
        scenarioStep mexp msqrt (params.r / 100) (params.q / 100)
          params.nPaths params.strikes z params.maturities.head?
          i sv j vv tt.1 tt.2 st3) st
      = .ok (params.maturities.enum.foldl (fun st3 tt =>
          pureStep mexp msqrt (params.r / 100) (params.q / 100)
            params.nPaths params.strikes z params.maturities.head?
            i sv j vv tt.1 tt.2 st3) st) := by
    intro i sv j vv st
    exact except_foldlM_eq_ok _ _
      (fun s a => by rw [scenarioStep, if_neg (not_lt.mpr hN)]) _ _
  have h2 : ∀ (i : ℕ) (sv : R) (st : SimState R),
      (generateArithmeticScenarios (params.vol / 100)
        params.volStep).enum.foldlM (fun st2 jv =>
          params.maturities.enum.foldlM (fun st3 tt =>
            scenarioStep mexp msqrt (params.r / 100) (params.q / 100)
              params.nPaths params.strikes z params.maturities.head?
              i sv jv.1 jv.2 tt.1 tt.2 st3) st2) st
      = .ok ((generateArithmeticScenarios (params.vol / 100)
          params.volStep).enum.foldl (fun st2 jv =>
            params.maturities.enum.foldl (fun st3 tt =>
              pureStep mexp msqrt (params.r / 100) (params.q / 100)
                params.nPaths params.strikes z params.maturities.head?
                i sv jv.1 jv.2 tt.1 tt.2 st3) st2) st) := by
    intro i sv st
    exact except_foldlM_eq_ok _ _ (fun s (a : ℕ × R) => h1 i sv a.1 a.2 s) _ _
  have h3 : (generateGeometricScenarios params.s0
        params.s0Step).enum.foldlM (fun st1 is =>
          (generateArithmeticScenarios (params.vol / 100)
            params.volStep).enum.foldlM (fun st2 jv =>
              params.maturities.enum.foldlM (fun st3 tt =>
                scenarioStep mexp msqrt (params.r / 100) (params.q / 100)
                  params.nPaths params.strikes z params.maturities.head?
                  is.1 is.2 jv.1 jv.2 tt.1 tt.2 st3) st2) st1)
          (⟨0, [], [], List.replicate 27 []⟩ : SimState R)
      = .ok ((generateGeometricScenarios params.s0
          params.s0Step).enum.foldl (fun st1 is =>
            (generateArithmeticScenarios (params.vol / 100)
              params.volStep).enum.foldl (fun st2 jv =>
                params.maturities.enum.foldl (fun st3 tt =>
                  pureStep mexp msqrt (params.r / 100) (params.q / 100)
                    params.nPaths params.strikes z params.maturities.head?
                    is.1 is.2 jv.1 jv.2 tt.1 tt.2 st3) st2) st1)
            (⟨0, [], [], List.replicate 27 []⟩ : SimState R)) :=
    except_foldlM_eq_ok _ _ (fun s (a : ℕ × R) => h2 a.1 a.2 s) _ _
  unfold runFullSimulation pureRun
  dsimp only
  rw [h3]
  rfl

theorem foldl_flatMap_eq {α β σ : Type} (l : List α) (f : α → List β)
    (g : σ → β → σ) (st : σ) :
    (l.flatMap f).foldl g st = l.foldl (fun s a => (f a).foldl g s) st := by
  induction l generalizing st with
  | nil => rfl
  | cons a rest ih => simp [List.flatMap_cons, List.foldl_append, ih]

theorem pureRun_eq_flat (mexp msqrt : R → R) (params : SimulationParams R)
    (z : ℕ → R) :
    pureRun mexp msqrt params z =
      (runSteps params).foldl
        (flatStep mexp msqrt (params.r / 100) (params.q / 100)
          params.nPaths params.strikes z params.maturities.head?)
        ⟨0, [], [], List.replicate 27 []⟩ := by
  unfold pureRun runSteps stepsOf flatStep
  dsimp only
  rw [foldl_flatMap_eq]
  congr 1
  funext s a
  rw [foldl_flatMap_eq]
  congr 1
  funext s' b
  rw [List.foldl_map]

theorem simulatePaths_length (mexp msqrt : R → R) (s0 vol t rDec qDec : R)
    (n : ℕ) (z : ℕ → R) (ctr : ℕ) :
    (simulatePaths mexp msqrt s0 vol t rDec qDec n z ctr).length = n := by
  simp [simulatePaths]

/-- C4: the detailed-column mapper reproduces the §4.5 enumeration exactly:
pivot pair `(2,2)` maps to column `maturityIndex`; the eight table pairs map
to `3 + 8·maturityIndex + offset`; every other `(spot, vol)` pair is
unmapped; and for M = 3 exactly 27 of the 75 triples are mapped, the
columns being a permutation of `0..26`. -/
theorem claim_C4_detailed_mapper_table :
    (∀ t : ℕ, getDetailedColumnIndex 2 2 t = (t : ℤ))
    ∧ (∀ t : ℕ,
        getDetailedColumnIndex 1 2 t = 3 + 8 * (t : ℤ)
      ∧ getDetailedColumnIndex 1 1 t = 3 + 8 * (t : ℤ) + 1
      ∧ getDetailedColumnIndex 1 3 t = 3 + 8 * (t : ℤ) + 2
      ∧ getDetailedColumnIndex 2 1 t = 3 + 8 * (t : ℤ) + 3
      ∧ getDetailedColumnIndex 2 3 t = 3 + 8 * (t : ℤ) + 4
      ∧ getDetailedColumnIndex 3 2 t = 3 + 8 * (t : ℤ) + 5
      ∧ getDetailedColumnIndex 3 1 t = 3 + 8 * (t : ℤ) + 6
      ∧ getDetailedColumnIndex 3 3 t = 3 + 8 * (t : ℤ) + 7)
    ∧ (∀ s v : ℕ, s < 5 → v < 5 → (s, v) ∉ mappedPairs →
        ∀ t : ℕ, getDetailedColumnIndex s v t = -1)
    ∧ allColumnsM3.length = 75
    ∧ mappedColumnsM3.length = 27
    ∧ mappedColumnsM3.Perm ((List.range 27).map fun n => (n : ℤ)) := by
  refine ⟨?_, ?_, ?_, by decide, by decide, by decide⟩
  · intro t
    simp [getDetailedColumnIndex]
  · intro t
    refine ⟨?_, ?_, ?_, ?_, ?_, ?_, ?_, ?_⟩ <;>
      (simp [getDetailedColumnIndex]; ring)
  · intro s v hs hv hsv t
    interval_cases s <;> interval_cases v <;>
      simp_all [getDetailedColumnIndex, mappedPairs]

theorem claim_C4_witness :
    getDetailedColumnIndex 0 0 0 = -1 ∧ getDetailedColumnIndex 2 2 5 = 5 :=
  ⟨claim_C4_detailed_mapper_table.2.2.1 0 0 (by norm_num) (by norm_num)
      (by decide) 0,
    claim_C4_detailed_mapper_table.1 5⟩

/-- C3 counterexample: for M = 4 maturities the triple
`(spotIndex, volIndex, maturityIndex) = (1, 2, 3)` is inside the claimed
domain, yet the mapper returns 27, outside `[0, 26]` and not unmapped. -/
theorem claim_C3_counterexample :
    ¬ (getDetailedColumnIndex 1 2 3 = -1 ∨
        (0 ≤ getDetailedColumnIndex 1 2 3 ∧
          getDetailedColumnIndex 1 2 3 ≤ 26)) := by
  decide

/-- C6 counterexample: the arithmetic generator with pivot 0 and nonzero
step `-100` yields `[2, 1, 0, -1, -2]`, which is not in ascending order. -/
theorem claim_C6_counterexample :
    (-100 : ℝ) ≠ 0 ∧
      ¬ List.Chain' (· < ·) (generateArithmeticScenarios (0 : ℝ) (-100)) := by
  constructor
  · norm_num
  · norm_num [generateArithmeticScenarios, List.chain'_cons]

/-- C6 amended: both generators return exactly 5 values with the pivot at
index 2; the arithmetic axis is strictly ascending for positive step and
strictly descending for negative step; the geometric axis is strictly
ascending for a positive pivot and a step strictly between 0 and 100
percent, and strictly descending for a positive pivot and a step strictly
between -100 and 0 percent. -/
theorem claim_C6_axes (pivot step : ℝ) :
    (generateGeometricScenarios pivot step).length = 5
  ∧ (generateArithmeticScenarios pivot step).length = 5
  ∧ (generateGeometricScenarios pivot step).getD 2 0 = pivot
  ∧ (generateArithmeticScenarios pivot step).getD 2 0 = pivot
  ∧ (0 < step → List.Chain' (· < ·) (generateArithmeticScenarios pivot step))
  ∧ (step < 0 → List.Chain' (· > ·) (generateArithmeticScenarios pivot step))
  ∧ (0 < pivot → 0 < step → step < 100 →
      List.Chain' (· < ·) (generateGeometricScenarios pivot step))
  ∧ (0 < pivot → -100 < step → step < 0 →
      List.Chain' (· > ·) (generateGeometricScenarios pivot step)) := by
  refine ⟨rfl, rfl, rfl, rfl, ?_, ?_, ?_, ?_⟩
  · intro h
    have hs : 0 < step / 100 := by positivity
    simp only [generateArithmeticScenarios, List.chain'_cons,
      List.chain'_singleton, and_true]
    refine ⟨by linarith, by linarith, by linarith, by linarith⟩
  · intro h
    have hs : step / 100 < 0 := by
      apply div_neg_of_neg_of_pos h
      norm_num
    simp only [generateArithmeticScenarios, List.chain'_cons,
      List.chain'_singleton, and_true, gt_iff_lt]
    refine ⟨by linarith, by linarith, by linarith, by linarith⟩
  · intro hp h0 h1
    have hs0 : 0 < step / 100 := by positivity
    have hs1 : step / 100 < 1 := by
      rw [div_lt_one (by norm_num : (0 : ℝ) < 100)]
      linarith
    have h1m : 0 < 1 - step / 100 := by linarith
    have h1p : 0 < 1 + step / 100 := by linarith
    simp only [generateGeometricScenarios, List.chain'_cons,
      List.chain'_singleton, and_true]
    refine ⟨?_, ?_, ?_, ?_⟩
    · nlinarith [mul_pos (mul_pos hp h1m) hs0]
    · nlinarith [mul_pos hp hs0]
    · nlinarith [mul_pos hp hs0]
    · nlinarith [mul_pos (mul_pos hp h1p) hs0]
  · intro hp h0 h1
    have hs0 : step / 100 < 0 := by
      apply div_neg_of_neg_of_pos h1
      norm_num
    have hs1 : -1 < step / 100 := by
      rw [lt_div_iff (by norm_num : (0 : ℝ) < 100)]
      linarith
    have h1m : 0 < 1 - step / 100 := by linarith
    have h1p : 0 < 1 + step / 100 := by linarith
    have hns : 0 < -(step / 100) := by linarith
    simp only [generateGeometricScenarios, List.chain'_cons,
      List.chain'_singleton, and_true, gt_iff_lt]
    refine ⟨?_, ?_, ?_, ?_⟩
    · nlinarith [mul_pos (mul_pos hp h1m) hns]
    · nlinarith [mul_pos hp hns]
    · nlinarith [mul_pos hp hns]
    · nlinarith [mul_pos (mul_pos hp h1p) hns]

theorem claim_C6_witness :
    List.Chain' (· < ·) (generateArithmeticScenarios (1 : ℝ) 50)
  ∧ List.Chain' (· < ·) (generateGeometricScenarios (1 : ℝ) 50) :=
  ⟨(claim_C6_axes 1 50).2.2.2.2.1 (by norm_num),
    (claim_C6_axes 1 50).2.2.2.2.2.2.1 (by norm_num) (by norm_num)
      (by norm_num)⟩

/-- C8: the payoff valuator returns exactly
`exp(-r·T) * (1/N) * Σ max(terminal_i - K, 0)` for a sample of length
N ≥ 1, is always nonnegative, and vanishes when the strike dominates
every sample point. -/
theorem claim_C8_payoff_valuator (terminal : List ℝ) (k t rDec : ℝ)
    (hne : terminal ≠ []) :
    payoffPrice Real.exp rDec t k (terminal.length : ℤ) terminal
      = Real.exp (-rDec * t) *
          ((1 / (terminal.length : ℝ)) *
            (terminal.map fun x => max (x - k) 0).sum)
  ∧ 0 ≤ payoffPrice Real.exp rDec t k (terminal.length : ℤ) terminal
  ∧ ((∀ x ∈ terminal, x ≤ k) →
      payoffPrice Real.exp rDec t k (terminal.length : ℤ) terminal = 0) := by
  have hsum : 0 ≤ (terminal.map fun x => max (x - k) 0).sum := by
    apply List.sum_nonneg
    intro y hy
    simp only [List.mem_map] at hy
    obtain ⟨x, _, rfl⟩ := hy
    exact le_max_right _ _
  refine ⟨?_, ?_, ?_⟩
  · simp only [payoffPrice]
    push_cast
    ring
  · simp only [payoffPrice]
    apply mul_nonneg (Real.exp_pos _).le
    apply div_nonneg hsum
    positivity
  · intro h
    have hz : (terminal.map fun x => max (x - k) 0).sum = 0 := by
      apply List.sum_eq_zero
      intro y hy
      simp only [List.mem_map] at hy
      obtain ⟨x, hx, rfl⟩ := hy
      have := h x hx
      simp [max_eq_right, sub_nonpos.mpr this]
    simp [payoffPrice, hz]

theorem claim_C8_witness :
    payoffPrice Real.exp 0 1 3 ((([1, 2] : List ℝ).length : ℤ)) [1, 2] = 0 :=
  (claim_C8_payoff_valuator [1, 2] 3 1 0 (by simp)).2.2 (by norm_num)

/-- C7: with maturity T = 0 the path simulator returns N identical terminal
prices, each exactly the spot S (drift and diffusion vanish), and a run
with nonnegative path count raises no error. -/
theorem claim_C7_degenerate_maturity (S sigma rDec qDec : ℝ) (n : ℕ)
    (z : ℕ → ℝ) (ctr : ℕ) (params : SimulationParams ℝ)
    (hn : 1 ≤ n) (hp : 0 ≤ params.nPaths) :
    simulatePaths Real.exp Real.sqrt S sigma 0 rDec qDec n z ctr
      = List.replicate n S
  ∧ (runFullSimulation Real.exp Real.sqrt params z).isOk = true := by
  constructor
  · simp [simulatePaths, Real.sqrt_zero, Real.exp_zero]
  · rw [run_eq_pureRun Real.exp Real.sqrt params z hp]
    rfl

theorem claim_C7_witness :
    simulatePaths Real.exp Real.sqrt 5 1 0 0 0 3 (fun _ => 0) 0
      = List.replicate 3 5
  ∧ (runFullSimulation Real.exp Real.sqrt
      ⟨0, 0, 100, 10, 20, 1, 2, [1], [50]⟩ (fun _ => 0)).isOk = true :=
  claim_C7_degenerate_maturity 5 1 0 0 3 (fun _ => 0) 0
    ⟨0, 0, 100, 10, 20, 1, 2, [1], [50]⟩ (by norm_num) (by norm_num)

theorem pureStep_ctr (mexp msqrt : R → R) (rDec qDec : R) (nP : ℤ)
    (ks : List R) (z : ℕ → R) (tdt : Option R) (i : ℕ) (sv : R) (j : ℕ)
    (vv : R) (tIdx : ℕ) (t : R) (st : SimState R) :
    (pureStep mexp msqrt rDec qDec nP ks z tdt i sv j vv tIdx t st).ctr
      = st.ctr + nP.toNat := rfl

theorem pureStep_results (mexp msqrt : R → R) (rDec qDec : R) (nP : ℤ)
    (ks : List R) (z : ℕ → R) (tdt : Option R) (i : ℕ) (sv : R) (j : ℕ)
    (vv : R) (tIdx : ℕ) (t : R) (st : SimState R) :
    (pureStep mexp msqrt rDec qDec nP ks z tdt i sv j vv tIdx t st).results
      = st.results ++ stepRows mexp msqrt rDec qDec nP ks z sv vv t st.ctr :=
  rfl

theorem pureStep_central (mexp msqrt : R → R) (rDec qDec : R) (nP : ℤ)
    (ks : List R) (z : ℕ → R) (tdt : Option R) (i : ℕ) (sv : R) (j : ℕ)
    (vv : R) (tIdx : ℕ) (t : R) (st : SimState R) :
    (pureStep mexp msqrt rDec qDec nP ks z tdt i sv j vv tIdx
        t st).centralDistribution
      = if i = 2 ∧ j = 2 ∧ some t = tdt then
          simulatePaths mexp msqrt sv vv t rDec qDec nP.toNat z st.ctr
        else st.centralDistribution := rfl

theorem pureStep_detailed (mexp msqrt : R → R) (rDec qDec : R) (nP : ℤ)
    (ks : List R) (z : ℕ → R) (tdt : Option R) (i : ℕ) (sv : R) (j : ℕ)
    (vv : R) (tIdx : ℕ) (t : R) (st : SimState R) :
    (pureStep mexp msqrt rDec qDec nP ks z tdt i sv j vv tIdx
        t st).detailedPaths
      = if getDetailedColumnIndex i j tIdx = -1 then st.detailedPaths
        else setGrow st.detailedPaths (getDetailedColumnIndex i j tIdx).toNat
          (simulatePaths mexp msqrt sv vv t rDec qDec nP.toNat z st.ctr) :=
  rfl

theorem flat_ctr (mexp msqrt : R → R) (rDec qDec : R) (nP : ℤ)
    (ks : List R) (z : ℕ → R) (tdt : Option R) :
    ∀ (L : List (ScenStep R)) (st : SimState R),
      (L.foldl (flatStep mexp msqrt rDec qDec nP ks z tdt) st).ctr
        = st.ctr + L.length * nP.toNat := by
  intro L
  induction L with
  | nil => intro st; simp
  | cons x rest ih =>
    intro st
    rw [List.foldl_cons, ih]
    simp only [flatStep, pureStep_ctr, List.length_cons]
    ring

theorem flat_results (mexp msqrt : R → R) (rDec qDec : R) (nP : ℤ)
    (ks : List R) (z : ℕ → R) (tdt : Option R) :
    ∀ (L : List (ScenStep R)) (st : SimState R),
      (L.foldl (flatStep mexp msqrt rDec qDec nP ks z tdt) st).results
        = st.results ++ rowsOfSteps mexp msqrt rDec qDec nP ks z st.ctr L := by
  intro L
  induction L with
  | nil => intro st; simp [rowsOfSteps]
  | cons x rest ih =>
    intro st
    rw [List.foldl_cons, ih]
    simp only [flatStep, pureStep_results, pureStep_ctr, rowsOfSteps,
      List.append_assoc]

theorem flat_central (mexp msqrt : R → R) (rDec qDec : R) (nP : ℤ)
    (ks : List R) (z : ℕ → R) (tdt : Option R) :
    ∀ (L : List (ScenStep R)) (st : SimState R),
      (L.foldl (flatStep mexp msqrt rDec qDec nP ks z
          tdt) st).centralDistribution
        = centralOfSteps mexp msqrt rDec qDec nP z tdt st.ctr
            st.centralDistribution L := by
  intro L
  induction L with
  | nil => intro st; simp [centralOfSteps]
  | cons x rest ih =>
    intro st
    rw [List.foldl_cons, ih]
    simp only [flatStep, pureStep_central, pureStep_ctr, centralOfSteps]

theorem flat_detailed (mexp msqrt : R → R) (rDec qDec : R) (nP : ℤ)
    (ks : List R) (z : ℕ → R) (tdt : Option R) :
    ∀ (L : List (ScenStep R)) (st : SimState R),
      (L.foldl (flatStep mexp msqrt rDec qDec nP ks z tdt) st).detailedPaths
        = applyWrites (writesOfSteps mexp msqrt rDec qDec nP z st.ctr L)
            st.detailedPaths := by
  intro L
  induction L with
  | nil => intro st; simp [writesOfSteps, applyWrites]
  | cons x rest ih =>
    intro st
    rw [List.foldl_cons, ih]
    by_cases h : getDetailedColumnIndex x.1.1 x.2.1.1 x.2.2.1 = -1
    · simp only [flatStep, pureStep_detailed, pureStep_ctr, writesOfSteps, h,
        if_true, if_pos]
    · simp only [flatStep, pureStep_detailed, pureStep_ctr, writesOfSteps, h,
        if_neg, if_false, applyWrites, List.foldl_cons]

theorem pureRun_results (mexp msqrt : R → R) (params : SimulationParams R)
    (z : ℕ → R) :
    (pureRun mexp msqrt params z).results
      = rowsOfSteps mexp msqrt (params.r / 100) (params.q / 100)
          params.nPaths params.strikes z 0 (runSteps params) := by
  rw [pureRun_eq_flat, flat_results]
  rfl

theorem pureRun_central (mexp msqrt : R → R) (params : SimulationParams R)
    (z : ℕ → R) :
    (pureRun mexp msqrt params z).centralDistribution
      = centralOfSteps mexp msqrt (params.r / 100) (params.q / 100)
          params.nPaths z params.maturities.head? 0 [] (runSteps params) := by
  rw [pureRun_eq_flat, flat_central]

theorem pureRun_detailed (mexp msqrt : R → R) (params : SimulationParams R)
    (z : ℕ → R) :
    (pureRun mexp msqrt params z).detailedPaths
      = applyWrites (writesOfSteps mexp msqrt (params.r / 100)
          (params.q / 100) params.nPaths z 0 (runSteps params))
          (List.replicate 27 []) := by
  rw [pureRun_eq_flat, flat_detailed]

theorem runSteps_eq_stepsFrom (params : SimulationParams R) :
    runSteps params
      = stepsFrom 0 (generateGeometricScenarios params.s0 params.s0Step)
          (generateArithmeticScenarios (params.vol / 100) params.volStep)
          params.maturities := rfl

theorem matChunk_cons (i : ℕ) (sv : R) (j : ℕ) (vv : R) (t0 : ℕ) (t : R)
    (ms : List R) :
    matChunk i sv j vv t0 (t :: ms)
      = ((i, sv), (j, vv), (t0, t)) :: matChunk i sv j vv (t0 + 1) ms := rfl

theorem matChunk_length (i : ℕ) (sv : R) (j : ℕ) (vv : R) (t0 : ℕ)
    (ms : List R) : (matChunk i sv j vv t0 ms).length = ms.length := by
  simp [matChunk]

theorem rowsOfSteps_append (mexp msqrt : R → R) (rDec qDec : R) (nP : ℤ)
    (ks : List R) (z : ℕ → R) :
    ∀ (L1 L2 : List (ScenStep R)) (c0 : ℕ),
      rowsOfSteps mexp msqrt rDec qDec nP ks z c0 (L1 ++ L2)
        = rowsOfSteps mexp msqrt rDec qDec nP ks z c0 L1
          ++ rowsOfSteps mexp msqrt rDec qDec nP ks z
              (c0 + L1.length * nP.toNat) L2 := by
  intro L1
  induction L1 with
  | nil => intro L2 c0; simp [rowsOfSteps]
  | cons x rest ih =>
    intro L2 c0
    simp only [List.cons_append, rowsOfSteps, List.length_cons,
      List.append_eq]
    rw [ih]
    have h : c0 + nP.toNat + rest.length * nP.toNat
        = c0 + (rest.length + 1) * nP.toNat := by ring
    rw [h, List.append_assoc]

theorem centralOfSteps_append (mexp msqrt : R → R) (rDec qDec : R) (nP : ℤ)
    (z : ℕ → R) (tdt : Option R) :
    ∀ (L1 L2 : List (ScenStep R)) (c0 : ℕ) (cur : List R),
      centralOfSteps mexp msqrt rDec qDec nP z tdt c0 cur (L1 ++ L2)
        = centralOfSteps mexp msqrt rDec qDec nP z tdt
            (c0 + L1.length * nP.toNat)
            (centralOfSteps mexp msqrt rDec qDec nP z tdt c0 cur L1) L2 := by
  intro L1
  induction L1 with
  | nil => intro L2 c0 cur; simp [centralOfSteps]
  | cons x rest ih =>
    intro L2 c0 cur
    simp only [List.cons_append, centralOfSteps, List.length_cons,
      List.append_eq]
    rw [ih]
    have h : c0 + nP.toNat + rest.length * nP.toNat
        = c0 + (rest.length + 1) * nP.toNat := by ring
    rw [h]

theorem writesOfSteps_append (mexp msqrt : R → R) (rDec qDec : R) (nP : ℤ)
    (z : ℕ → R) :
    ∀ (L1 L2 : List (ScenStep R)) (c0 : ℕ),
      writesOfSteps mexp msqrt rDec qDec nP z c0 (L1 ++ L2)
        = writesOfSteps mexp msqrt rDec qDec nP z c0 L1
          ++ writesOfSteps mexp msqrt rDec qDec nP z
              (c0 + L1.length * nP.toNat) L2 := by
  intro L1
  induction L1 with
  | nil => intro L2 c0; simp [writesOfSteps]
  | cons x rest ih =>
    intro L2 c0
    have h : c0 + nP.toNat + rest.length * nP.toNat
        = c0 + (rest.length + 1) * nP.toNat := by ring
    by_cases hx : getDetailedColumnIndex x.1.1 x.2.1.1 x.2.2.1 = -1
    · simp only [List.cons_append, writesOfSteps, hx, if_pos,
        List.length_cons, List.append_eq]
      rw [ih, h]
    · simp only [List.cons_append, writesOfSteps, hx, if_neg, if_false,
        List.length_cons, List.append_eq]
      rw [ih, h]

theorem rowsOfSteps_matChunk (mexp msqrt : R → R) (rDec qDec : R) (nP : ℤ)
    (ks : List R) (z : ℕ → R) (i : ℕ) (sv : R) (j : ℕ) (vv : R) :
    ∀ (ms : List R) (t0 c0 : ℕ),
      rowsOfSteps mexp msqrt rDec qDec nP ks z c0 (matChunk i sv j vv t0 ms)
        = (List.range ms.length).flatMap fun d =>
            stepRows mexp msqrt rDec qDec nP ks z sv vv (ms.getD d 0)
              (c0 + d * nP.toNat) := by
  intro ms
  induction ms with
  | nil => intro t0 c0; simp [matChunk, rowsOfSteps, List.enumFrom]
  | cons t rest ih =>
    intro t0 c0
    rw [matChunk_cons]
    simp only [rowsOfSteps, ih, List.length_cons, List.range_succ_eq_map,
      List.flatMap_cons, List.flatMap_map]
    have h : ∀ d : ℕ, c0 + nP.toNat + d * nP.toNat
        = c0 + (d + 1) * nP.toNat := by intro d; ring
    simp only [Function.comp_def, Nat.succ_eq_add_one, List.getD_cons_succ,
      List.getD_cons_zero, Nat.zero_mul, Nat.add_zero, h]

theorem volBlock_length (a : ℕ × R) (ms : List R) :
    ∀ vl : List R,
      ((vl.enum.flatMap fun b => ms.enum.map fun c =>
        ((a, b, c) : ScenStep R))).length = vl.length * ms.length := by
  have haux : ∀ (vl : List R) (b0 : ℕ),
      (((vl.enumFrom b0).flatMap fun b => ms.enum.map fun c =>
        ((a, b, c) : ScenStep R))).length = vl.length * ms.length := by
    intro vl
    induction vl with
    | nil => intro b0; simp
    | cons v rest ih =>
      intro b0
      rw [show List.enumFrom b0 (v :: rest)
        = (b0, v) :: List.enumFrom (b0 + 1) rest from rfl]
      rw [List.flatMap_cons, List.length_append, ih]
      simp only [List.length_map, List.enum_length, List.length_cons]
      ring
  intro vl
  exact haux vl 0

theorem rowsOfSteps_volBlock (mexp msqrt : R → R) (rDec qDec : R) (nP : ℤ)
    (ks : List R) (z : ℕ → R) (ms : List R) (a : ℕ × R) :
    ∀ (vl : List R) (b0 c0 : ℕ),
      rowsOfSteps mexp msqrt rDec qDec nP ks z c0
          ((vl.enumFrom b0).flatMap fun b => ms.enum.map fun c => (a, b, c))
        = (List.range vl.length).flatMap fun b =>
            (List.range ms.length).flatMap fun d =>
              stepRows mexp msqrt rDec qDec nP ks z a.2 (vl.getD b 0)
                (ms.getD d 0) (c0 + (b * ms.length + d) * nP.toNat) := by
  intro vl
  induction vl with
  | nil => intro b0 c0; simp [rowsOfSteps]
  | cons v rest ih =>
    intro b0 c0
    rw [show List.enumFrom b0 (v :: rest)
      = (b0, v) :: List.enumFrom (b0 + 1) rest from rfl]
    rw [List.flatMap_cons]
    rw [show (ms.enum.map fun c => ((a, (b0, v), c) : ScenStep R))
      = matChunk a.1 a.2 b0 v 0 ms from rfl]
    rw [rowsOfSteps_append, matChunk_length, rowsOfSteps_matChunk, ih]
    rw [List.length_cons, List.range_succ_eq_map, List.flatMap_cons,
      List.flatMap_map]
    have h : ∀ b d : ℕ,
        c0 + ms.length * nP.toNat + (b * ms.length + d) * nP.toNat
          = c0 + ((b + 1) * ms.length + d) * nP.toNat := by
      intro b d; ring
    simp only [Function.comp_def, Nat.succ_eq_add_one, List.getD_cons_succ,
      List.getD_cons_zero, Nat.zero_mul, Nat.zero_add, h]

theorem rowsOfSteps_stepsFrom (mexp msqrt : R → R) (rDec qDec : R) (nP : ℤ)
    (ks : List R) (z : ℕ → R) (vl ms : List R) :
    ∀ (s0l : List R) (a0 c0 : ℕ),
      rowsOfSteps mexp msqrt rDec qDec nP ks z c0 (stepsFrom a0 s0l vl ms)
        = (List.range s0l.length).flatMap fun i =>
            (List.range vl.length).flatMap fun j =>
              (List.range ms.length).flatMap fun d =>
                stepRows mexp msqrt rDec qDec nP ks z (s0l.getD i 0)
                  (vl.getD j 0) (ms.getD d 0)
                  (c0 + ((i * vl.length + j) * ms.length + d) * nP.toNat) := by
  intro s0l
  induction s0l with
  | nil => intro a0 c0; simp [stepsFrom, rowsOfSteps]
  | cons s rest ih =>
    intro a0 c0
    rw [show stepsFrom a0 (s :: rest) vl ms
      = ((vl.enum.flatMap fun b => ms.enum.map fun c => ((a0, s), b, c))
          ++ stepsFrom (a0 + 1) rest vl ms) from rfl]
    rw [rowsOfSteps_append, volBlock_length]
    rw [show (vl.enum.flatMap fun b => ms.enum.map fun c =>
        (((a0, s), b, c) : ScenStep R))
      = ((vl.enumFrom 0).flatMap fun b => ms.enum.map fun c =>
        (((a0, s), b, c) : ScenStep R)) from rfl]
    rw [rowsOfSteps_volBlock, ih]
    rw [List.length_cons, List.range_succ_eq_map, List.flatMap_cons,
      List.flatMap_map]
    have h : ∀ i j d : ℕ,
        c0 + vl.length * ms.length * nP.toNat
            + ((i * vl.length + j) * ms.length + d) * nP.toNat
          = c0 + (((i + 1) * vl.length + j) * ms.length + d) * nP.toNat := by
      intro i j d; ring
    simp only [Function.comp_def, Nat.succ_eq_add_one, List.getD_cons_succ,
      List.getD_cons_zero, Nat.zero_mul, Nat.zero_add, h]

/-- C5: for valid parameters the run returns exactly the full
spot × vol × maturity × strike cross product of rows, in iteration order
spot → vol → maturity → strike, with `25·M·K` rows in total. -/
theorem claim_C5_exhaustive_rows (params : SimulationParams ℝ) (z : ℕ → ℝ)
    (h1 : 1 ≤ params.nPaths) (h2 : params.maturities ≠ [])
    (h3 : params.strikes ≠ []) :
    ((runFullSimulation Real.exp Real.sqrt params z).map fun r => r.results)
      = .ok (crossProductRows Real.exp Real.sqrt params z)
  ∧ (crossProductRows Real.exp Real.sqrt params z).length
      = 25 * params.maturities.length * params.strikes.length := by
  constructor
  · rw [run_eq_pureRun Real.exp Real.sqrt params z (by omega)]
    simp only [Except.map]
    rw [pureRun_results, runSteps_eq_stepsFrom, rowsOfSteps_stepsFrom]
    simp [crossProductRows, scenarioSample, stepRows,
      generateGeometricScenarios, generateArithmeticScenarios]
  · simp [crossProductRows, List.length_flatMap, Function.comp_def,
      List.sum_replicate, smul_eq_mul]
    ring

theorem claim_C5_witness :
    ((runFullSimulation Real.exp Real.sqrt
        ⟨0, 0, 100, 10, 20, 1, 1, [1], [50]⟩ (fun _ => 0)).map
          fun r => r.results)
      = .ok (crossProductRows Real.exp Real.sqrt
          ⟨0, 0, 100, 10, 20, 1, 1, [1], [50]⟩ (fun _ => 0))
  ∧ (crossProductRows Real.exp Real.sqrt
      ⟨0, 0, 100, 10, 20, 1, 1, [1], [50]⟩ (fun _ => 0)).length
      = 25 * ([(1 : ℝ)].length) * ([(50 : ℝ)].length) :=
  claim_C5_exhaustive_rows ⟨0, 0, 100, 10, 20, 1, 1, [1], [50]⟩ (fun _ => 0)
    (by norm_num) (by simp) (by simp)

theorem matChunk_raw (i : ℕ) (sv : R) (j : ℕ) (vv : R) (t0 : ℕ)
    (ms : List R) :
    List.map (fun c => (((i, sv), (j, vv), c) : ScenStep R))
        (List.enumFrom t0 ms)
      = matChunk i sv j vv t0 ms := rfl

theorem central_matChunk_ne (mexp msqrt : R → R) (rDec qDec : R) (nP : ℤ)
    (z : ℕ → R) (tdt : Option R) (i : ℕ) (sv : R) (j : ℕ) (vv : R)
    (hij : ¬(i = 2 ∧ j = 2)) :
    ∀ (ms : List R) (t0 c0 : ℕ) (cur : List R),
      centralOfSteps mexp msqrt rDec qDec nP z tdt c0 cur
          (matChunk i sv j vv t0 ms)
        = cur := by
  intro ms
  induction ms with
  | nil => intro t0 c0 cur; rfl
  | cons t rest ih =>
    intro t0 c0 cur
    rw [matChunk_cons]
    simp only [centralOfSteps]
    rw [if_neg (by rintro ⟨h1, h2, -⟩; exact hij ⟨h1, h2⟩)]
    exact ih (t0 + 1) (c0 + nP.toNat) cur

theorem central_matChunk_nomatch (mexp msqrt : R → R) (rDec qDec : R)
    (nP : ℤ) (z : ℕ → R) (tdt : Option R) (i : ℕ) (sv : R) (j : ℕ) (vv : R) :
    ∀ (ms : List R) (t0 c0 : ℕ) (cur : List R),
      (∀ d, d < ms.length → ¬(some (ms.getD d 0) = tdt)) →
      centralOfSteps mexp msqrt rDec qDec nP z tdt c0 cur
          (matChunk i sv j vv t0 ms)
        = cur := by
  intro ms
  induction ms with
  | nil => intro t0 c0 cur _; rfl
  | cons t rest ih =>
    intro t0 c0 cur h
    rw [matChunk_cons]
    simp only [centralOfSteps]
    rw [if_neg (by
      rintro ⟨-, -, h3⟩
      exact h 0 (by simp) h3)]
    exact ih (t0 + 1) (c0 + nP.toNat) cur fun d hd => by
      have := h (d + 1) (by simpa using Nat.succ_lt_succ hd)
      simpa using this

theorem central_matChunk_last (mexp msqrt : R → R) (rDec qDec : R) (nP : ℤ)
    (z : ℕ → R) (tdt : Option R) (sv vv : R) :
    ∀ (ms : List R) (tstar t0 c0 : ℕ) (cur : List R),
      tstar < ms.length →
      some (ms.getD tstar 0) = tdt →
      (∀ u, tstar < u → u < ms.length → ¬(some (ms.getD u 0) = tdt)) →
      centralOfSteps mexp msqrt rDec qDec nP z tdt c0 cur
          (matChunk 2 sv 2 vv t0 ms)
        = simulatePaths mexp msqrt sv vv (ms.getD tstar 0) rDec qDec
            nP.toNat z (c0 + tstar * nP.toNat) := by
  intro ms
  induction ms with
  | nil =>
    intro tstar t0 c0 cur hts
    exact absurd hts (by simp)
  | cons t rest ih =>
    intro tstar t0 c0 cur hts hmatch hafter
    rw [matChunk_cons]
    simp only [centralOfSteps]
    cases tstar with
    | zero =>
      rw [if_pos ⟨by trivial, by trivial, hmatch⟩]
      rw [central_matChunk_nomatch mexp msqrt rDec qDec nP z tdt 2 sv 2 vv
        rest (t0 + 1) (c0 + nP.toNat) _ fun d hd => by
          have := hafter (d + 1) (by omega) (by simpa using Nat.succ_lt_succ hd)
          simpa using this]
      simp
    | succ d =>
      rw [ih d (t0 + 1) (c0 + nP.toNat) _ (by simpa using hts)
        (by simpa using hmatch)
        (fun u hu hlen => by
          have := hafter (u + 1) (by omega) (by simpa using Nat.succ_lt_succ hlen)
          simpa using this)]
      have h : c0 + nP.toNat + d * nP.toNat = c0 + (d + 1) * nP.toNat := by
        ring
      rw [List.getD_cons_succ, h]

theorem central_stepsFrom5 (mexp msqrt : R → R) (rDec qDec : R) (nP : ℤ)
    (z : ℕ → R) (tdt : Option R) (e0 e1 e2 e3 e4 v0 v1 v2 v3 v4 : R)
    (ms : List R) (c0 : ℕ) (cur : List R) (tstar : ℕ)
    (hts : tstar < ms.length)
    (hmatch : some (ms.getD tstar 0) = tdt)
    (hafter : ∀ u, tstar < u → u < ms.length →
      ¬(some (ms.getD u 0) = tdt)) :
    centralOfSteps mexp msqrt rDec qDec nP z tdt c0 cur
        (stepsFrom 0 [e0, e1, e2, e3, e4] [v0, v1, v2, v3, v4] ms)
      = simulatePaths mexp msqrt e2 v2 (ms.getD tstar 0) rDec qDec
          nP.toNat z (c0 + 12 * (ms.length * nP.toNat) + tstar * nP.toNat) := by
  simp only [stepsFrom, List.enum, List.enumFrom, List.flatMap_cons,
    List.flatMap_nil, List.append_nil, matChunk_raw]
  simp [centralOfSteps_append, matChunk_length, central_matChunk_ne]
  rw [central_matChunk_last mexp msqrt rDec qDec nP z tdt e2 v2 ms tstar 0 _
    cur hts hmatch hafter]
  congr 1
  all_goals first
  | exact List.getD_eq_getElem?_getD ms tstar 0
  | rfl
  | ring

theorem run_central_eq (mexp msqrt : R → R) (params : SimulationParams R)
    (z : ℕ → R) (tstar : ℕ) (hne : params.maturities ≠ [])
    (hts : tstar < params.maturities.length)
    (hmatch : params.maturities.getD tstar 0 = params.maturities.getD 0 0)
    (hafter : ∀ u, tstar < u → u < params.maturities.length →
      params.maturities.getD u 0 ≠ params.maturities.getD 0 0) :
    (pureRun mexp msqrt params z).centralDistribution
      = scenarioSample mexp msqrt params z 2 2 tstar := by
  have hhead : ∀ l : List R, l ≠ [] → l.head? = some (l.getD 0 0) := by
    intro l hl
    cases l with
    | nil => exact absurd rfl hl
    | cons a t => rfl
  rw [pureRun_central, runSteps_eq_stepsFrom, hhead _ hne]
  simp only [generateGeometricScenarios, generateArithmeticScenarios]
  rw [central_stepsFrom5 mexp msqrt (params.r / 100) (params.q / 100)
    params.nPaths z (some (params.maturities.getD 0 0)) _ _ _ _ _ _ _ _ _ _
    params.maturities 0 [] tstar hts (by rw [hmatch]) (fun u hu hlen => by
      simp only [Option.some_inj]
      exact hafter u hu hlen)]
  simp only [scenarioSample, generateGeometricScenarios,
    generateArithmeticScenarios, List.getD_cons_succ, List.getD_cons_zero]
  congr 1
  all_goals first
  | exact List.getD_eq_getElem?_getD params.maturities tstar 0
  | rfl
  | ring

/-- C2 amended: for valid parameters the returned central distribution is
the terminal-price sample simulated for the triple `(2, 2, t*)` where `t*`
is the last maturity index whose value equals `maturities[0]` (the source
compares maturity values, not indices, so a duplicated first maturity moves
the retained sample to the last duplicate); it has length `nPaths`.  When
`maturities[0]` does not recur, `t* = 0` and the claim's original triple
`(2, 2, 0)` is obtained. -/
theorem claim_C2_central_distribution (params : SimulationParams ℝ)
    (z : ℕ → ℝ) (tstar : ℕ) (h1 : 1 ≤ params.nPaths)
    (h2 : params.maturities ≠ []) (h3 : params.strikes ≠ [])
    (hts : tstar < params.maturities.length)
    (hmatch : params.maturities.getD tstar 0 = params.maturities.getD 0 0)
    (hafter : ∀ u, tstar < u → u < params.maturities.length →
      params.maturities.getD u 0 ≠ params.maturities.getD 0 0) :
    ((runFullSimulation Real.exp Real.sqrt params z).map
        fun r => r.centralDistribution)
      = .ok (scenarioSample Real.exp Real.sqrt params z 2 2 tstar)
  ∧ (scenarioSample Real.exp Real.sqrt params z 2 2 tstar).length
      = params.nPaths.toNat := by
  constructor
  · rw [run_eq_pureRun Real.exp Real.sqrt params z (by omega)]
    simp only [Except.map]
    rw [run_central_eq Real.exp Real.sqrt params z tstar h2 hts hmatch hafter]
  · simp [scenarioSample, simulatePaths_length]

theorem claim_C2_witness :
    ((runFullSimulation Real.exp Real.sqrt
        ⟨0, 0, 100, 10, 20, 1, 2, [1], [50]⟩ (fun _ => 0)).map
          fun r => r.centralDistribution)
      = .ok (scenarioSample Real.exp Real.sqrt
          ⟨0, 0, 100, 10, 20, 1, 2, [1], [50]⟩ (fun _ => 0) 2 2 0)
  ∧ (scenarioSample Real.exp Real.sqrt
      ⟨0, 0, 100, 10, 20, 1, 2, [1], [50]⟩ (fun _ => 0) 2 2 0).length
      = (2 : ℤ).toNat :=
  claim_C2_central_distribution ⟨0, 0, 100, 10, 20, 1, 2, [1], [50]⟩
    (fun _ => 0) 0 (by norm_num) (by simp) (by simp) (by simp) rfl
    (by intro u hu hlen; simp at hlen; omega)

/-- C2 counterexample: with maturities `[1, 1]` (the first maturity value
recurring at index 1) the central distribution is the sample of triple
`(2, 2, 1)`, not the claimed `(2, 2, 0)` sample: the two samples consume
different draws of the shared stream and differ. -/
theorem claim_C2_counterexample :
    ((runFullSimulation Real.exp Real.sqrt
        ⟨0, 0, 1, 0, 100, 0, 1, [1, 1], [1]⟩ (fun n => (n : ℝ))).map
          fun r => r.centralDistribution)
      ≠ .ok (scenarioSample Real.exp Real.sqrt
          ⟨0, 0, 1, 0, 100, 0, 1, [1, 1], [1]⟩ (fun n => (n : ℝ)) 2 2 0) := by
  rw [run_eq_pureRun Real.exp Real.sqrt _ _ (by norm_num)]
  simp only [Except.map]
  rw [run_central_eq Real.exp Real.sqrt _ _ 1 (by simp) (by simp) (by simp)
    (by intro u hu hlen; simp at hlen; omega)]
  simp only [ne_eq, Except.ok.injEq]
  intro heq
  simp only [scenarioSample, simulatePaths, generateGeometricScenarios,
    generateArithmeticScenarios, List.getD_cons_succ, List.getD_cons_zero,
    List.length_cons, List.length_nil, List.range_succ, List.range_zero,
    List.map_cons, List.map_nil, List.nil_append, List.cons.injEq,
    and_true] at heq
  norm_num [Real.exp_eq_exp, Real.sqrt_one] at heq

/-- C1: evidence of the missing fail-fast validation.  With an empty strike
list (invalid per the spec) and otherwise valid parameters, the run does
not fail: it performs the full simulation and returns a successful result
whose central distribution has length `nPaths` — partial output instead of
the required error. -/
theorem claim_C1_no_fail_fast :
    ((runFullSimulation Real.exp Real.sqrt
        ⟨0, 0, 100, 10, 20, 1, 2, [1], []⟩ (fun _ => 0)).map
          fun r => (r.centralDistribution.length, r.results.length))
      = .ok (2, 0) := by
  rw [run_eq_pureRun Real.exp Real.sqrt _ _ (by norm_num)]
  simp only [Except.map, Except.ok.injEq, Prod.mk.injEq]
  constructor
  · rw [run_central_eq Real.exp Real.sqrt _ _ 0 (by simp) (by simp) rfl
      (by intro u hu hlen; simp at hlen; omega)]
    simp [scenarioSample, simulatePaths_length]
  · rw [pureRun_results, runSteps_eq_stepsFrom, rowsOfSteps_stepsFrom]
    simp [stepRows, List.length_flatMap, Function.comp_def, List.map_const',
      List.sum_replicate, smul_eq_mul]

theorem setGrow_length (l : List (List R)) (i : ℕ) (v : List R) :
    (setGrow l i v).length = max l.length (i + 1) := by
  unfold setGrow
  split_ifs with h
  · simp only [List.length_set]
    omega
  · simp only [List.length_append, List.length_replicate, List.length_cons,
      List.length_nil]
    omega

theorem applyWrites_length_eq (ws : List (ℤ × List R)) :
    ∀ d : List (List R),
      (applyWrites ws d).length
        = ws.foldl (fun n w => max n (w.1.toNat + 1)) d.length := by
  induction ws with
  | nil => intro d; rfl
  | cons w rest ih =>
    intro d
    show (applyWrites rest (setGrow d w.1.toNat w.2)).length = _
    rw [ih, setGrow_length]
    rfl

theorem applyWrites_length_of_bounded (ws : List (ℤ × List R)) :
    ∀ d : List (List R),
      (∀ w ∈ ws, w.1.toNat < d.length) →
      (applyWrites ws d).length = d.length := by
  induction ws with
  | nil => intro d _; rfl
  | cons w rest ih =>
    intro d hb
    show (applyWrites rest (setGrow d w.1.toNat w.2)).length = d.length
    have hlen : (setGrow d w.1.toNat w.2).length = d.length := by
      rw [setGrow_length]
      have := hb w (by simp)
      omega
    rw [ih _ (by rw [hlen]; intro w' hw'; exact hb w' (by simp [hw'])), hlen]

theorem setGrow_getD_ne (l : List (List R)) (i c : ℕ) (v : List R)
    (hc : c < l.length) (hne : i ≠ c) :
    (setGrow l i v).getD c [] = l.getD c [] := by
  unfold setGrow
  split_ifs with h
  · simp [List.getD_eq_getElem?_getD, List.getElem?_set_ne hne]
  · simp [List.getD_eq_getElem?_getD, List.getElem?_append_left,
      List.getElem?_append_left hc]

theorem setGrow_getD_self (l : List (List R)) (i : ℕ) (v : List R)
    (hi : i < l.length) :
    (setGrow l i v).getD i [] = v := by
  unfold setGrow
  rw [if_pos hi]
  simp [List.getD_eq_getElem?_getD, List.getElem?_set_self hi]

theorem lastWrite_cons (c : ℤ) (w : ℤ × List R) (ws : List (ℤ × List R)) :
    lastWrite c (w :: ws)
      = match lastWrite c ws with
        | some s => some s
        | none => if w.1 = c then some w.2 else none := rfl

theorem applyWrites_getD (ws : List (ℤ × List R)) :
    ∀ (d : List (List R)) (c : ℕ),
      c < d.length →
      (∀ w ∈ ws, 0 ≤ w.1) →
      (applyWrites ws d).getD c []
        = (lastWrite (c : ℤ) ws).getD (d.getD c []) := by
  induction ws with
  | nil => intro d c _ _; rfl
  | cons w rest ih =>
    intro d c hc hpos
    show (applyWrites rest (setGrow d w.1.toNat w.2)).getD c [] = _
    have hc' : c < (setGrow d w.1.toNat w.2).length := by
      rw [setGrow_length]; omega
    rw [ih _ c hc' fun w' hw' => hpos w' (by simp [hw'])]
    rw [lastWrite_cons]
    cases hlw : lastWrite (c : ℤ) rest with
    | some s => simp
    | none =>
      by_cases hw : w.1 = (c : ℤ)
      · have htn : w.1.toNat = c := by omega
        rw [htn, setGrow_getD_self _ _ _ hc]
        simp [hw]
      · have h0 : 0 ≤ w.1 := hpos w (by simp)
        have htn : w.1.toNat ≠ c := by omega
        rw [setGrow_getD_ne _ _ _ _ hc htn]
        simp [hw]

theorem lastWrite_some_mem (c : ℤ) :
    ∀ (ws : List (ℤ × List R)) (s : List R),
      lastWrite c ws = some s → ∃ w ∈ ws, w.1 = c ∧ w.2 = s := by
  intro ws
  induction ws with
  | nil => intro s h; exact absurd h (by simp [lastWrite])
  | cons w rest ih =>
    intro s h
    rw [lastWrite_cons] at h
    cases hlw : lastWrite c rest with
    | some s' =>
      rw [hlw] at h
      simp only [Option.some_inj] at h
      obtain ⟨w', hw', h1, h2⟩ := ih s' hlw
      exact ⟨w', by simp [hw'], h1, by rw [h2, h]⟩
    | none =>
      rw [hlw] at h
      simp only at h
      by_cases hw : w.1 = c
      · rw [if_pos hw] at h
        exact ⟨w, by simp, hw, Option.some_inj.mp h⟩
      · rw [if_neg hw] at h
        exact absurd h (by simp)

theorem lastWrite_none_of_forall (c : ℤ) :
    ∀ ws : List (ℤ × List R),
      (∀ w ∈ ws, w.1 ≠ c) → lastWrite c ws = none := by
  intro ws
  induction ws with
  | nil => intro _; rfl
  | cons w rest ih =>
    intro h
    rw [lastWrite_cons]
    rw [ih fun w' hw' => h w' (by simp [hw'])]
    rw [if_neg (h w (by simp))]

theorem lastWrite_eq_some_of_mem (c : ℤ) (s : List R) :
    ∀ ws : List (ℤ × List R),
      (c, s) ∈ ws →
      (∀ w ∈ ws, w.1 = c → w.2 = s) →
      lastWrite c ws = some s := by
  intro ws
  induction ws with
  | nil => intro h; exact absurd h (by simp)
  | cons w rest ih =>
    intro hmem huniq
    rw [lastWrite_cons]
    cases hlw : lastWrite c rest with
    | some s' =>
      obtain ⟨w', hw', h1, h2⟩ := lastWrite_some_mem c rest s' hlw
      have hs : s' = s := by
        rw [← h2]
        exact huniq w' (by simp [hw']) h1
      simp only [hs]
    | none =>
      rcases List.mem_cons.mp hmem with heq | hmem'
      · simp only
        rw [if_pos (by rw [← heq])]
        rw [show w.2 = s by rw [← heq]]
      · have hsome := ih hmem' fun w' hw' => huniq w' (by simp [hw'])
        rw [hsome] at hlw
        exact absurd hlw (by simp)

theorem mapper_nonneg (s v t : ℕ) :
    getDetailedColumnIndex s v t = -1 ∨ 0 ≤ getDetailedColumnIndex s v t := by
  unfold getDetailedColumnIndex
  dsimp only
  split_ifs <;> omega

theorem mapper_range3 :
    ∀ s < 5, ∀ v < 5, ∀ t < 3,
      getDetailedColumnIndex s v t = -1 ∨
        (0 ≤ getDetailedColumnIndex s v t ∧
          getDetailedColumnIndex s v t ≤ 26) := by
  decide

set_option maxHeartbeats 1000000 in
theorem mapper_inj3 :
    ∀ s ∈ List.range 5, ∀ v ∈ List.range 5, ∀ t ∈ List.range 3,
      ∀ s' ∈ List.range 5, ∀ v' ∈ List.range 5, ∀ t' ∈ List.range 3,
        getDetailedColumnIndex s v t = -1 ∨
        getDetailedColumnIndex s v t ≠ getDetailedColumnIndex s' v' t' ∨
        (s = s' ∧ v = v' ∧ t = t') := by
  decide

theorem mapper_eq_zero_iff (s v t : ℕ) :
    getDetailedColumnIndex s v t = 0 ↔ s = 2 ∧ v = 2 ∧ t = 0 := by
  by_cases hp : s = 2 ∧ v = 2
  · obtain ⟨hs, hv⟩ := hp
    subst hs; subst hv
    rw [show getDetailedColumnIndex 2 2 t = (t : ℤ) from by
      unfold getDetailedColumnIndex; rw [if_pos ⟨rfl, rfl⟩]]
    omega
  · unfold getDetailedColumnIndex
    dsimp only
    rw [if_neg hp]
    constructor
    · intro h
      exfalso
      split_ifs at h <;> omega
    · rintro ⟨hs, hv, -⟩
      exact absurd ⟨hs, hv⟩ hp

theorem mem_writes_matChunk_elim (mexp msqrt : R → R) (rDec qDec : R)
    (nP : ℤ) (z : ℕ → R) (i : ℕ) (sv : R) (j : ℕ) (vv : R) :
    ∀ (ms : List R) (t0 c0 : ℕ) (w : ℤ × List R),
      w ∈ writesOfSteps mexp msqrt rDec qDec nP z c0
        (matChunk i sv j vv t0 ms) →
      ∃ d, d < ms.length ∧ getDetailedColumnIndex i j (t0 + d) ≠ -1 ∧
        w = (getDetailedColumnIndex i j (t0 + d),
          simulatePaths mexp msqrt sv vv (ms.getD d 0) rDec qDec nP.toNat
            z (c0 + d * nP.toNat)) := by
  intro ms
  induction ms with
  | nil =>
    intro t0 c0 w hw
    exact absurd hw (by simp [matChunk, writesOfSteps, List.enumFrom])
  | cons t rest ih =>
    intro t0 c0 w hw
    rw [matChunk_cons] at hw
    simp only [writesOfSteps] at hw
    have hstep : ∀ hw' : w ∈ writesOfSteps mexp msqrt rDec qDec nP z
        (c0 + nP.toNat) (matChunk i sv j vv (t0 + 1) rest),
        ∃ d, d < (t :: rest).length ∧
          getDetailedColumnIndex i j (t0 + d) ≠ -1 ∧
          w = (getDetailedColumnIndex i j (t0 + d),
            simulatePaths mexp msqrt sv vv ((t :: rest).getD d 0) rDec qDec
              nP.toNat z (c0 + d * nP.toNat)) := by
      intro hw'
      obtain ⟨d, hd, hne, hweq⟩ := ih (t0 + 1) (c0 + nP.toNat) w hw'
      refine ⟨d + 1, by simpa using Nat.succ_lt_succ hd, ?_, ?_⟩
      · rw [show t0 + (d + 1) = t0 + 1 + d by omega]
        exact hne
      · rw [show t0 + (d + 1) = t0 + 1 + d by omega, List.getD_cons_succ,
          show c0 + (d + 1) * nP.toNat = c0 + nP.toNat + d * nP.toNat
            by ring]
        exact hweq
    by_cases hidx : getDetailedColumnIndex i j t0 = -1
    · rw [if_pos hidx] at hw
      exact hstep hw
    · rw [if_neg hidx] at hw
      rcases List.mem_cons.mp hw with heq | hmem
      · refine ⟨0, by simp, by simpa using hidx, ?_⟩
        simpa using heq
      · exact hstep hmem

theorem mem_writes_matChunk_intro (mexp msqrt : R → R) (rDec qDec : R)
    (nP : ℤ) (z : ℕ → R) (i : ℕ) (sv : R) (j : ℕ) (vv : R) :
    ∀ (ms : List R) (t0 c0 d : ℕ),
      d < ms.length →
      getDetailedColumnIndex i j (t0 + d) ≠ -1 →
      (getDetailedColumnIndex i j (t0 + d),
        simulatePaths mexp msqrt sv vv (ms.getD d 0) rDec qDec nP.toNat
          z (c0 + d * nP.toNat))
        ∈ writesOfSteps mexp msqrt rDec qDec nP z c0
            (matChunk i sv j vv t0 ms) := by
  intro ms
  induction ms with
  | nil => intro t0 c0 d hd; exact absurd hd (by simp)
  | cons t rest ih =>
    intro t0 c0 d hd hne
    rw [matChunk_cons]
    simp only [writesOfSteps]
    cases d with
    | zero =>
      rw [if_neg (by simpa using hne)]
      simp
    | succ d' =>
      have hmem := ih (t0 + 1) (c0 + nP.toNat) d' (by simpa using hd)
        (by rw [show t0 + 1 + d' = t0 + (d' + 1) by omega]; exact hne)
      rw [show t0 + 1 + d' = t0 + (d' + 1) by omega] at hmem
      rw [show c0 + nP.toNat + d' * nP.toNat = c0 + (d' + 1) * nP.toNat
        by ring] at hmem
      rw [List.getD_cons_succ]
      by_cases hidx : getDetailedColumnIndex i j t0 = -1
      · rw [if_pos hidx]
        exact hmem
      · rw [if_neg hidx]
        exact List.mem_cons_of_mem _ hmem

theorem writesOfSteps_volBlock (mexp msqrt : R → R) (rDec qDec : R)
    (nP : ℤ) (z : ℕ → R) (ms : List R) (a : ℕ × R) :
    ∀ (vl : List R) (b0 c0 : ℕ),
      writesOfSteps mexp msqrt rDec qDec nP z c0
          ((vl.enumFrom b0).flatMap fun b => ms.enum.map fun c => (a, b, c))
        = (List.range vl.length).flatMap fun b =>
            writesOfSteps mexp msqrt rDec qDec nP z
              (c0 + b * (ms.length * nP.toNat))
              (matChunk a.1 a.2 (b0 + b) (vl.getD b 0) 0 ms) := by
  intro vl
  induction vl with
  | nil => intro b0 c0; simp [writesOfSteps]
  | cons v rest ih =>
    intro b0 c0
    rw [show List.enumFrom b0 (v :: rest)
      = (b0, v) :: List.enumFrom (b0 + 1) rest from rfl]
    rw [List.flatMap_cons]
    rw [show (ms.enum.map fun c => ((a, (b0, v), c) : ScenStep R))
      = matChunk a.1 a.2 b0 v 0 ms from rfl]
    rw [writesOfSteps_append, matChunk_length, ih]
    rw [List.length_cons, List.range_succ_eq_map, List.flatMap_cons,
      List.flatMap_map]
    have h1 : ∀ b : ℕ,
        c0 + ms.length * nP.toNat + b * (ms.length * nP.toNat)
          = c0 + (b + 1) * (ms.length * nP.toNat) := by
      intro b; ring
    have h2 : ∀ b : ℕ, b0 + 1 + b = b0 + (b + 1) := by intro b; omega
    simp only [Function.comp_def, Nat.succ_eq_add_one, List.getD_cons_succ,
      List.getD_cons_zero, Nat.zero_mul, Nat.add_zero, Nat.zero_add,
      Nat.mul_assoc, h1, h2]

theorem writesOfSteps_stepsFrom (mexp msqrt : R → R) (rDec qDec : R)
    (nP : ℤ) (z : ℕ → R) (vl ms : List R) :
    ∀ (s0l : List R) (a0 c0 : ℕ),
      writesOfSteps mexp msqrt rDec qDec nP z c0 (stepsFrom a0 s0l vl ms)
        = (List.range s0l.length).flatMap fun a =>
            (List.range vl.length).flatMap fun b =>
              writesOfSteps mexp msqrt rDec qDec nP z
                (c0 + a * (vl.length * (ms.length * nP.toNat))
                  + b * (ms.length * nP.toNat))
                (matChunk (a0 + a) (s0l.getD a 0) b (vl.getD b 0) 0 ms) := by
  intro s0l
  induction s0l with
  | nil => intro a0 c0; simp [stepsFrom, writesOfSteps]
  | cons s rest ih =>
    intro a0 c0
    rw [show stepsFrom a0 (s :: rest) vl ms
      = ((vl.enum.flatMap fun b => ms.enum.map fun c => ((a0, s), b, c))
          ++ stepsFrom (a0 + 1) rest vl ms) from rfl]
    rw [writesOfSteps_append, volBlock_length]
    rw [show (vl.enum.flatMap fun b => ms.enum.map fun c =>
        (((a0, s), b, c) : ScenStep R))
      = ((vl.enumFrom 0).flatMap fun b => ms.enum.map fun c =>
        (((a0, s), b, c) : ScenStep R)) from rfl]
    rw [writesOfSteps_volBlock, ih]
    rw [List.length_cons, List.range_succ_eq_map, List.flatMap_cons,
      List.flatMap_map]
    have h1 : ∀ a b : ℕ,
        c0 + vl.length * ms.length * nP.toNat
            + a * (vl.length * (ms.length * nP.toNat))
            + b * (ms.length * nP.toNat)
          = c0 + (a + 1) * (vl.length * (ms.length * nP.toNat))
            + b * (ms.length * nP.toNat) := by
      intro a b; ring
    have h2 : ∀ a : ℕ, a0 + 1 + a = a0 + (a + 1) := by intro a; omega
    simp only [Function.comp_def, Nat.succ_eq_add_one, List.getD_cons_succ,
      List.getD_cons_zero, Nat.zero_mul, Nat.add_zero, Nat.zero_add,
      h1, h2]

theorem scenarioSample_of_ctr (mexp msqrt : R → R)
    (params : SimulationParams R) (z : ℕ → R) (i j d c : ℕ)
    (hc : c = ((i * 5 + j) * params.maturities.length + d)
      * params.nPaths.toNat) :
    simulatePaths mexp msqrt
        ((generateGeometricScenarios params.s0 params.s0Step).getD i 0)
        ((generateArithmeticScenarios (params.vol / 100)
          params.volStep).getD j 0)
        (params.maturities.getD d 0) (params.r / 100) (params.q / 100)
        params.nPaths.toNat z c
      = scenarioSample mexp msqrt params z i j d := by
  rw [scenarioSample, hc]

theorem run_writes_elim (mexp msqrt : R → R) (params : SimulationParams R)
    (z : ℕ → R) (w : ℤ × List R)
    (hw : w ∈ writesOfSteps mexp msqrt (params.r / 100) (params.q / 100)
      params.nPaths z 0 (runSteps params)) :
    ∃ a b d, a < 5 ∧ b < 5 ∧ d < params.maturities.length ∧
      getDetailedColumnIndex a b d ≠ -1 ∧
      w = (getDetailedColumnIndex a b d,
        scenarioSample mexp msqrt params z a b d) := by
  rw [runSteps_eq_stepsFrom, writesOfSteps_stepsFrom] at hw
  rw [List.mem_flatMap] at hw
  obtain ⟨a, ha, hw⟩ := hw
  rw [List.mem_range] at ha
  rw [List.mem_flatMap] at hw
  obtain ⟨b, hb, hw⟩ := hw
  rw [List.mem_range] at hb
  obtain ⟨d, hd, hne, hweq⟩ :=
    mem_writes_matChunk_elim mexp msqrt (params.r / 100) (params.q / 100)
      params.nPaths z (0 + a) _ b _ params.maturities 0 _ w hw
  simp only [Nat.zero_add] at hne hweq
  refine ⟨a, b, d, by simpa using ha, by simpa using hb, hd, hne, ?_⟩
  rw [hweq, scenarioSample_of_ctr mexp msqrt params z a b d _ (by
    simp only [show (generateArithmeticScenarios (params.vol / 100)
      params.volStep).length = 5 from rfl]
    ring)]

theorem run_writes_intro (mexp msqrt : R → R) (params : SimulationParams R)
    (z : ℕ → R) (a b d : ℕ) (ha : a < 5) (hb : b < 5)
    (hd : d < params.maturities.length)
    (hne : getDetailedColumnIndex a b d ≠ -1) :
    (getDetailedColumnIndex a b d,
        scenarioSample mexp msqrt params z a b d)
      ∈ writesOfSteps mexp msqrt (params.r / 100) (params.q / 100)
          params.nPaths z 0 (runSteps params) := by
  rw [runSteps_eq_stepsFrom, writesOfSteps_stepsFrom]
  rw [List.mem_flatMap]
  refine ⟨a, by
    simp only [List.mem_range,
      show (generateGeometricScenarios params.s0 params.s0Step).length = 5
        from rfl]
    exact ha, ?_⟩
  rw [List.mem_flatMap]
  refine ⟨b, by
    simp only [List.mem_range,
      show (generateArithmeticScenarios (params.vol / 100)
        params.volStep).length = 5 from rfl]
    exact hb, ?_⟩
  have hmem := mem_writes_matChunk_intro mexp msqrt (params.r / 100)
    (params.q / 100) params.nPaths z (0 + a)
    ((generateGeometricScenarios params.s0 params.s0Step).getD a 0) b
    ((generateArithmeticScenarios (params.vol / 100) params.volStep).getD b 0)
    params.maturities 0
    (0 + a * ((generateArithmeticScenarios (params.vol / 100)
        params.volStep).length * (params.maturities.length
          * params.nPaths.toNat))
      + b * (params.maturities.length * params.nPaths.toNat))
    d hd (by simpa using hne)
  rw [scenarioSample_of_ctr mexp msqrt params z a b d _ (by
    simp only [show (generateArithmeticScenarios (params.vol / 100)
      params.volStep).length = 5 from rfl]
    ring)] at hmem
  simpa using hmem

theorem run_writes_nonneg (mexp msqrt : R → R) (params : SimulationParams R)
    (z : ℕ → R) (w : ℤ × List R)
    (hw : w ∈ writesOfSteps mexp msqrt (params.r / 100) (params.q / 100)
      params.nPaths z 0 (runSteps params)) :
    0 ≤ w.1 := by
  obtain ⟨a, b, d, _, _, _, hne, hweq⟩ :=
    run_writes_elim mexp msqrt params z w hw
  rcases mapper_nonneg a b d with h | h
  · exact absurd h hne
  · rw [hweq]
    exact h

theorem run_detailed_length27 (mexp msqrt : R → R)
    (params : SimulationParams R) (z : ℕ → R)
    (hM : params.maturities.length ≤ 3) :
    (pureRun mexp msqrt params z).detailedPaths.length = 27 := by
  rw [pureRun_detailed]
  rw [applyWrites_length_of_bounded _ _ ?bound]
  · simp
  case bound =>
    intro w hw
    obtain ⟨a, b, d, ha, hb, hd, hne, hweq⟩ :=
      run_writes_elim mexp msqrt params z w hw
    rcases mapper_range3 a ha b hb d (by omega) with h | ⟨h0, h26⟩
    · exact absurd h hne
    · rw [hweq]
      simp only [List.length_replicate]
      omega

theorem run_detailed_slot (mexp msqrt : R → R) (params : SimulationParams R)
    (z : ℕ → R) (hM : params.maturities.length ≤ 3) (a b d : ℕ)
    (ha : a < 5) (hb : b < 5) (hd : d < params.maturities.length)
    (hne : getDetailedColumnIndex a b d ≠ -1) :
    (pureRun mexp msqrt params z).detailedPaths.getD
        (getDetailedColumnIndex a b d).toNat []
      = scenarioSample mexp msqrt params z a b d := by
  rcases mapper_range3 a ha b hb d (by omega) with h | ⟨h0, h26⟩
  · exact absurd h hne
  rw [pureRun_detailed]
  rw [applyWrites_getD _ _ _ (by simp; omega)
    (fun w hw => run_writes_nonneg mexp msqrt params z w hw)]
  rw [show (((getDetailedColumnIndex a b d).toNat : ℕ) : ℤ)
    = getDetailedColumnIndex a b d from Int.toNat_of_nonneg h0]
  rw [lastWrite_eq_some_of_mem _ _ _
    (run_writes_intro mexp msqrt params z a b d ha hb hd hne) ?uniq]
  · rfl
  case uniq =>
    intro w hw hw1
    obtain ⟨a', b', d', ha', hb', hd', hne', hweq⟩ :=
      run_writes_elim mexp msqrt params z w hw
    rw [hweq] at hw1
    simp only at hw1
    rcases mapper_inj3 a' (List.mem_range.mpr ha') b'
      (List.mem_range.mpr hb') d' (List.mem_range.mpr (by omega))
      a (List.mem_range.mpr ha) b (List.mem_range.mpr hb) d
      (List.mem_range.mpr (by omega)) with h | h | ⟨e1, e2, e3⟩
    · exact absurd h hne'
    · exact absurd hw1 h
    · subst e1; subst e2; subst e3
      rw [hweq]

theorem run_detailed_slot0 (mexp msqrt : R → R)
    (params : SimulationParams R) (z : ℕ → R)
    (hne : params.maturities ≠ []) :
    (pureRun mexp msqrt params z).detailedPaths.getD 0 []
      = scenarioSample mexp msqrt params z 2 2 0 := by
  have hM0 : 0 < params.maturities.length := List.length_pos.mpr hne
  rw [pureRun_detailed]
  rw [applyWrites_getD _ _ _ (by simp)
    (fun w hw => run_writes_nonneg mexp msqrt params z w hw)]
  have hmem := run_writes_intro mexp msqrt params z 2 2 0 (by omega)
    (by omega) hM0 (by decide)
  rw [show getDetailedColumnIndex 2 2 0 = 0 from by decide] at hmem
  rw [show ((0 : ℕ) : ℤ) = 0 from rfl]
  rw [lastWrite_eq_some_of_mem _ _ _ hmem ?uniq0]
  · rfl
  case uniq0 =>
    intro w hw hw1
    obtain ⟨a', b', d', ha', hb', hd', hne', hweq⟩ :=
      run_writes_elim mexp msqrt params z w hw
    rw [hweq] at hw1
    simp only at hw1
    obtain ⟨e1, e2, e3⟩ := (mapper_eq_zero_iff a' b' d').mp hw1
    subst e1; subst e2; subst e3
    rw [hweq]

theorem run_detailed_empty (mexp msqrt : R → R)
    (params : SimulationParams R) (z : ℕ → R) (c : ℕ) (hc : c < 27)
    (hnone : ∀ a, a < 5 → ∀ b, b < 5 → ∀ d, d < params.maturities.length →
      getDetailedColumnIndex a b d ≠ (c : ℤ)) :
    (pureRun mexp msqrt params z).detailedPaths.getD c [] = [] := by
  rw [pureRun_detailed]
  rw [applyWrites_getD _ _ _ (by simpa)
    (fun w hw => run_writes_nonneg mexp msqrt params z w hw)]
  rw [lastWrite_none_of_forall _ _ ?none]
  · simp only [Option.getD_none, List.getD_eq_getElem?_getD,
      List.getElem?_replicate, if_pos hc, Option.getD_some]
  case none =>
    intro w hw
    obtain ⟨a, b, d, ha, hb, hd, hne, hweq⟩ :=
      run_writes_elim mexp msqrt params z w hw
    rw [hweq]
    exact hnone a ha b hb d hd

theorem writesOfSteps_map_fst (mexp msqrt : R → R) (rDec qDec : R)
    (nP : ℤ) (z : ℕ → R) :
    ∀ (L : List (ScenStep R)) (c0 : ℕ),
      (writesOfSteps mexp msqrt rDec qDec nP z c0 L).map Prod.fst
        = ((L.map fun x =>
            getDetailedColumnIndex x.1.1 x.2.1.1 x.2.2.1).filter
              (· ≠ -1)) := by
  intro L
  induction L with
  | nil => intro c0; rfl
  | cons x rest ih =>
    intro c0
    simp only [writesOfSteps, List.map_cons, List.filter_cons]
    by_cases hidx : getDetailedColumnIndex x.1.1 x.2.1.1 x.2.2.1 = -1
    · simp [hidx, ih]
    · simp [hidx, ih]

theorem foldl_max_fst (ws : List (ℤ × List R)) (n0 : ℕ) :
    ws.foldl (fun n w => max n (w.1.toNat + 1)) n0
      = (ws.map Prod.fst).foldl (fun n c => max n (c.toNat + 1)) n0 := by
  rw [List.foldl_map]

/-- C10: when the first maturity value does not recur later, the central
distribution and detailed slot 0 both hold the sample simulated for the
triple `(2, 2, 0)`, hence are elementwise equal. -/
theorem claim_C10_central_eq_slot0 (params : SimulationParams ℝ)
    (z : ℕ → ℝ) (h1 : 1 ≤ params.nPaths) (h2 : params.maturities ≠ [])
    (h3 : params.strikes ≠ [])
    (hnodup : ∀ u, 0 < u → u < params.maturities.length →
      params.maturities.getD u 0 ≠ params.maturities.getD 0 0) :
    ((runFullSimulation Real.exp Real.sqrt params z).map
        fun r => r.centralDistribution)
      = .ok (scenarioSample Real.exp Real.sqrt params z 2 2 0)
  ∧ ((runFullSimulation Real.exp Real.sqrt params z).map
        fun r => r.detailedPaths.getD 0 [])
      = .ok (scenarioSample Real.exp Real.sqrt params z 2 2 0) := by
  constructor
  · rw [run_eq_pureRun Real.exp Real.sqrt params z (by omega)]
    simp only [Except.map]
    rw [run_central_eq Real.exp Real.sqrt params z 0 h2
      (List.length_pos.mpr h2) rfl (fun u hu hlen => hnodup u hu hlen)]
  · rw [run_eq_pureRun Real.exp Real.sqrt params z (by omega)]
    simp only [Except.map]
    rw [run_detailed_slot0 Real.exp Real.sqrt params z h2]

theorem claim_C10_witness :
    ((runFullSimulation Real.exp Real.sqrt
        ⟨0, 0, 100, 10, 20, 1, 2, [1], [50]⟩ (fun _ => 0)).map
          fun r => r.centralDistribution)
      = .ok (scenarioSample Real.exp Real.sqrt
          ⟨0, 0, 100, 10, 20, 1, 2, [1], [50]⟩ (fun _ => 0) 2 2 0)
  ∧ ((runFullSimulation Real.exp Real.sqrt
        ⟨0, 0, 100, 10, 20, 1, 2, [1], [50]⟩ (fun _ => 0)).map
          fun r => r.detailedPaths.getD 0 [])
      = .ok (scenarioSample Real.exp Real.sqrt
          ⟨0, 0, 100, 10, 20, 1, 2, [1], [50]⟩ (fun _ => 0) 2 2 0) :=
  claim_C10_central_eq_slot0 ⟨0, 0, 100, 10, 20, 1, 2, [1], [50]⟩
    (fun _ => 0) (by norm_num) (by simp) (by simp)
    (by intro u hu hlen; simp at hlen; omega)

/-- C9 amended: for valid parameters with at most 3 maturities the detailed
collection has exactly 27 slots; a slot assigned by the mapper to an
iterated triple holds that triple's sample of length `nPaths` (hence is
populated); a slot assigned to no iterated triple is the empty list.  For
4 or more maturities the collection grows beyond 27 slots (see the
counterexample). -/
theorem claim_C9_detailed_slots (params : SimulationParams ℝ) (z : ℕ → ℝ)
    (h1 : 1 ≤ params.nPaths) (h2 : params.maturities ≠ [])
    (h3 : params.strikes ≠ []) (hM : params.maturities.length ≤ 3) :
    runFullSimulation Real.exp Real.sqrt params z
      = .ok ⟨(pureRun Real.exp Real.sqrt params z).results,
             (pureRun Real.exp Real.sqrt params z).centralDistribution,
             (pureRun Real.exp Real.sqrt params z).detailedPaths⟩
  ∧ (pureRun Real.exp Real.sqrt params z).detailedPaths.length = 27
  ∧ (∀ a b d : ℕ, a < 5 → b < 5 → d < params.maturities.length →
      getDetailedColumnIndex a b d ≠ -1 →
      (pureRun Real.exp Real.sqrt params z).detailedPaths.getD
          (getDetailedColumnIndex a b d).toNat []
        = scenarioSample Real.exp Real.sqrt params z a b d
      ∧ ((pureRun Real.exp Real.sqrt params z).detailedPaths.getD
          (getDetailedColumnIndex a b d).toNat []).length
        = params.nPaths.toNat
      ∧ (pureRun Real.exp Real.sqrt params z).detailedPaths.getD
          (getDetailedColumnIndex a b d).toNat [] ≠ [])
  ∧ (∀ c : ℕ, c < 27 →
      (∀ a, a < 5 → ∀ b, b < 5 → ∀ d, d < params.maturities.length →
        getDetailedColumnIndex a b d ≠ (c : ℤ)) →
      (pureRun Real.exp Real.sqrt params z).detailedPaths.getD c [] = []) := by
  refine ⟨run_eq_pureRun Real.exp Real.sqrt params z (by omega),
    run_detailed_length27 Real.exp Real.sqrt params z hM, ?_, ?_⟩
  · intro a b d ha hb hd hne
    have hs := run_detailed_slot Real.exp Real.sqrt params z hM a b d ha hb
      hd hne
    refine ⟨hs, ?_, ?_⟩
    · rw [hs]
      simp [scenarioSample, simulatePaths_length]
    · rw [hs]
      intro hcon
      have hlen := congrArg List.length hcon
      simp [scenarioSample, simulatePaths_length] at hlen
      omega
  · intro c hc hnone
    exact run_detailed_empty Real.exp Real.sqrt params z c hc hnone

theorem claim_C9_witness :
    (pureRun Real.exp Real.sqrt ⟨0, 0, 100, 10, 20, 1, 2, [1], [50]⟩
      (fun _ => 0)).detailedPaths.length = 27
  ∧ (pureRun Real.exp Real.sqrt ⟨0, 0, 100, 10, 20, 1, 2, [1], [50]⟩
      (fun _ => 0)).detailedPaths.getD
        (getDetailedColumnIndex 2 2 0).toNat []
      = scenarioSample Real.exp Real.sqrt
          ⟨0, 0, 100, 10, 20, 1, 2, [1], [50]⟩ (fun _ => 0) 2 2 0 :=
  ⟨(claim_C9_detailed_slots ⟨0, 0, 100, 10, 20, 1, 2, [1], [50]⟩
      (fun _ => 0) (by norm_num) (by simp) (by simp) (by simp)).2.1,
    ((claim_C9_detailed_slots ⟨0, 0, 100, 10, 20, 1, 2, [1], [50]⟩
      (fun _ => 0) (by norm_num) (by simp) (by simp) (by simp)).2.2.1
        2 2 0 (by norm_num) (by norm_num) (by simp) (by decide)).1⟩

set_option maxRecDepth 100000 in
/-- C9 counterexample: with 4 maturities (valid per the spec's input
contract) the detailed collection ends with 35 slots, not 27: the mapper
emits column indices up to 34 and the JS array store grows the array. -/
theorem claim_C9_counterexample :
    ((runFullSimulation Real.exp Real.sqrt
        ⟨0, 0, 100, 10, 20, 1, 1, [1, 1, 1, 1], [50]⟩ (fun _ => 0)).map
          fun r => r.detailedPaths.length)
      = .ok 35 := by
  rw [run_eq_pureRun Real.exp Real.sqrt _ _ (by norm_num)]
  simp only [Except.map, Except.ok.injEq]
  rw [pureRun_detailed, applyWrites_length_eq, foldl_max_fst,
    writesOfSteps_map_fst]
  rw [runSteps_eq_stepsFrom]
  decide

/-- C3 amended: restricted to at most 3 maturities the mapper returns a
column in `[0, 26]` or unmapped, and the 27-slot detailed collection is
never overflowed (its length stays exactly 27); for `maturityIndex ≥ 3`
the mapper leaves `[0, 26]` (see the counterexample), and for `M ≥ 4`
the collection grows. -/
theorem claim_C3_bounded_mapping :
    (∀ s < 5, ∀ v < 5, ∀ t < 3,
      getDetailedColumnIndex s v t = -1 ∨
        (0 ≤ getDetailedColumnIndex s v t ∧
          getDetailedColumnIndex s v t ≤ 26))
  ∧ (∀ (params : SimulationParams ℝ) (z : ℕ → ℝ),
      1 ≤ params.nPaths → params.maturities ≠ [] → params.strikes ≠ [] →
      params.maturities.length ≤ 3 →
      ((runFullSimulation Real.exp Real.sqrt params z).map
        fun r => r.detailedPaths.length) = .ok 27) := by
  refine ⟨mapper_range3, ?_⟩
  intro params z h1 h2 h3 hM
  rw [run_eq_pureRun Real.exp Real.sqrt params z (by omega)]
  simp only [Except.map, Except.ok.injEq]
  exact run_detailed_length27 Real.exp Real.sqrt params z hM

theorem claim_C3_witness :
    (getDetailedColumnIndex 1 2 2 = -1 ∨
      (0 ≤ getDetailedColumnIndex 1 2 2 ∧ getDetailedColumnIndex 1 2 2 ≤ 26))
  ∧ ((runFullSimulation Real.exp Real.sqrt
      ⟨0, 0, 100, 10, 20, 1, 1, [1], [50]⟩ (fun _ => 0)).map
        fun r => r.detailedPaths.length) = .ok 27 :=
  ⟨claim_C3_bounded_mapping.1 1 (by norm_num) 2 (by norm_num) 2
      (by norm_num),
    claim_C3_bounded_mapping.2 ⟨0, 0, 100, 10, 20, 1, 1, [1], [50]⟩
      (fun _ => 0) (by norm_num) (by simp) (by simp) (by simp)⟩

end MonteCarloManPack
